import Mathlib

/-!
Verification development for the catalog-forge batch asset pipeline.

The definitions below are a shallow embedding of the TypeScript sources:
`src/services/fileProcessor.ts` (smartFetch, getExtension, downloadBatch,
createFinalArchive), `src/services/googleDrive.ts` (fetchWithRetry,
fetchFolderContents), and the module components (AssetClassifier,
AssetCategorizer, WebDownloader, DriveDownloader).  JavaScript strings are
modelled as Lean `String`s, with the string operations re-implemented over
`List Char` so that every definition evaluates inside the kernel.
-/

/-! ## Character-list string operations (JS string primitives) -/

/-- JS whitespace characters relevant to `trim`, `\s` and `replace(/\s+/g, _)`. -/
def wsChar (c : Char) : Bool :=
  c = ' ' || c = '\t' || c = '\n' || c = '\r' || c = '\x0b' || c = '\x0c'

/-- Does `hay` start with `sub`?  Used to model substring search. -/
def leadMatch : List Char → List Char → Bool
  | _, [] => true
  | [], _ :: _ => false
  | c :: cs, d :: ds => c = d && leadMatch cs ds

/-- `hay.includes(sub)` on character lists. -/
def containsSub : List Char → List Char → Bool
  | hay, sub =>
    if leadMatch hay sub then true
    else match hay with
      | [] => false
      | _ :: rest => containsSub rest sub

/-- JS `String.prototype.includes`. -/
def sIncludes (s sub : String) : Bool := containsSub s.data sub.data

/-- First-occurrence replacement on character lists (JS `String.prototype.replace`
with a plain-string pattern replaces only the first occurrence). -/
def replaceFirstChars : List Char → List Char → List Char → List Char
  | hay, sub, new =>
    if leadMatch hay sub then new ++ hay.drop sub.length
    else match hay with
      | [] => []
      | c :: rest => c :: replaceFirstChars rest sub new

/-- JS `s.replace(sub, new)` for a plain-string pattern. -/
def replaceFirst (s sub new : String) : String :=
  ⟨replaceFirstChars s.data sub.data new.data⟩

/-- Split a character list at every occurrence of the separator character. -/
def splitOnChar (sep : Char) : List Char → List (List Char)
  | [] => [[]]
  | c :: cs =>
    let rest := splitOnChar sep cs
    if c = sep then [] :: rest
    else match rest with
      | [] => [[c]]
      | r :: rs => (c :: r) :: rs

/-- JS `s.split(sep)` for a one-character separator. -/
def jsSplit (s : String) (sep : Char) : List String :=
  (splitOnChar sep s.data).map (fun cs => ⟨cs⟩)

/-- JS `String.prototype.trim`. -/
def jsTrim (s : String) : String :=
  ⟨((s.data.dropWhile wsChar).reverse.dropWhile wsChar).reverse⟩

/-- JS `String.prototype.toLowerCase` (ASCII case folding). -/
def jsToLower (s : String) : String := ⟨s.data.map Char.toLower⟩

theorem dropWhile_length_le (p : α → Bool) : ∀ (l : List α), (l.dropWhile p).length ≤ l.length := by
  intro l
  induction l with
  | nil => simp
  | cons c cs ih =>
    by_cases h : p c
    · simp only [List.dropWhile, h]
      exact Nat.le_succ_of_le ih
    · simp [List.dropWhile, h]

/-- Worker for `collapseWs`; `inWs` records whether the previous character was
whitespace (in which case the current run's underscore is already emitted). -/
def collapseGo (inWs : Bool) : List Char → List Char
  | [] => []
  | c :: cs =>
    if wsChar c then
      if inWs then collapseGo true cs else '_' :: collapseGo true cs
    else c :: collapseGo false cs

/-- `s.replace(/\s+/g, '_')`: every maximal whitespace run becomes one underscore. -/
def collapseWs (s : String) : String := ⟨collapseGo false s.data⟩

/-! ## The natural / numeric-aware, case-insensitive collation

Modelled from the spec: `Intl.Collator(undefined, { numeric: true,
sensitivity: 'base' })` and `localeCompare(_, undefined, { numeric: true,
sensitivity: 'base' })` are platform built-ins whose code is not part of the
repository.  The spec describes them as "a natural/numeric-aware collation
(so that \"img2\" sorts before \"img10\"), case-insensitive, stable for
ties", which the token comparison below realises: maximal digit runs are
compared as numbers, all other characters case-insensitively. -/

/-- One collation token: a digit-run value or a case-folded character. -/
inductive NToken where
  | num : Nat → NToken
  | ch : Char → NToken
deriving DecidableEq

/-- Numeric value of a decimal digit character. -/
def digitVal (c : Char) : Nat := c.toNat - '0'.toNat

/-- Worker for `tokenizeChars`; `acc` carries the value of the digit run
currently being read, if any. -/
def tokenizeGo (acc : Option Nat) : List Char → List NToken
  | [] =>
    match acc with
    | some n => [.num n]
    | none => []
  | c :: cs =>
    if c.isDigit then tokenizeGo (some (acc.getD 0 * 10 + digitVal c)) cs
    else
      match acc with
      | some n => .num n :: .ch c.toLower :: tokenizeGo none cs
      | none => .ch c.toLower :: tokenizeGo none cs

/-- Cut a string into collation tokens: maximal digit runs become numbers,
other characters are case-folded. -/
def tokenizeChars (cs : List Char) : List NToken := tokenizeGo none cs

/-- Collation key of a string. -/
def natKey (s : String) : List NToken := tokenizeChars s.data

/-- Three-way comparison on `Nat`. -/
def cmpNat (m n : Nat) : Ordering :=
  if m < n then .lt else if n < m then .gt else .eq

/-- Three-way comparison of collation tokens: digit runs sort before
characters, digit runs compare numerically, characters by code point. -/
def cmpTok : NToken → NToken → Ordering
  | .num m, .num n => cmpNat m n
  | .num _, .ch _ => .lt
  | .ch _, .num _ => .gt
  | .ch a, .ch b => cmpNat a.toNat b.toNat

/-- Lexicographic comparison of token lists. -/
def cmpToks : List NToken → List NToken → Ordering
  | [], [] => .eq
  | [], _ :: _ => .lt
  | _ :: _, [] => .gt
  | x :: xs, y :: ys =>
    match cmpTok x y with
    | .eq => cmpToks xs ys
    | o => o

/-- The collator's `compare(a, b)`. -/
def natCompare (a b : String) : Ordering := cmpToks (natKey a) (natKey b)

/-- Boolean `a ≤ b` under the collation, the comparator handed to the sort. -/
def natLe (a b : String) : Bool :=
  match natCompare a b with
  | .gt => false
  | _ => true

theorem cmpNat_eq_iff {m n : Nat} : cmpNat m n = .eq ↔ m = n := by
  unfold cmpNat
  split <;> rename_i h
  · simp; omega
  · split <;> rename_i h2
    · simp; omega
    · simp; omega

theorem cmpNat_swap (m n : Nat) : cmpNat n m = (cmpNat m n).swap := by
  unfold cmpNat
  rcases Nat.lt_trichotomy m n with h | h | h
  · rw [if_pos h, if_neg (Nat.lt_asymm h), if_neg (Nat.lt_asymm h), if_pos h]
    rfl
  · subst h
    rw [if_neg (Nat.lt_irrefl m), if_neg (Nat.lt_irrefl m)]
    rfl
  · rw [if_pos h, if_neg (Nat.lt_asymm h), if_pos h]
    rfl

theorem cmpNat_lt_iff {m n : Nat} : cmpNat m n = .lt ↔ m < n := by
  unfold cmpNat
  split <;> rename_i h
  · simp [h]
  · split <;> simp <;> omega

theorem cmpNat_lt_trans {a b c : Nat} (h₁ : cmpNat a b = .lt) (h₂ : cmpNat b c = .lt) :
    cmpNat a c = .lt :=
  cmpNat_lt_iff.mpr (Nat.lt_trans (cmpNat_lt_iff.mp h₁) (cmpNat_lt_iff.mp h₂))

theorem charToNat_inj {a b : Char} (h : a.toNat = b.toNat) : a = b := by
  apply Char.eq_of_val_eq
  apply UInt32.eq_of_val_eq
  exact Fin.ext h

theorem cmpTok_eq_iff {x y : NToken} : cmpTok x y = .eq ↔ x = y := by
  cases x <;> cases y
  · simp [cmpTok, cmpNat_eq_iff]
  · simp [cmpTok]
  · simp [cmpTok]
  · simp only [cmpTok, cmpNat_eq_iff, NToken.ch.injEq]
    exact ⟨charToNat_inj, fun h => by rw [h]⟩

theorem cmpTok_swap (x y : NToken) : cmpTok y x = (cmpTok x y).swap := by
  cases x <;> cases y
  · exact cmpNat_swap _ _
  · rfl
  · rfl
  · exact cmpNat_swap _ _

theorem cmpTok_lt_trans {x y z : NToken} (h₁ : cmpTok x y = .lt) (h₂ : cmpTok y z = .lt) :
    cmpTok x z = .lt := by
  cases x <;> cases y <;> cases z <;>
    first
      | rfl
      | exact cmpNat_lt_trans h₁ h₂
      | exact Ordering.noConfusion h₁
      | exact Ordering.noConfusion h₂

theorem cmpToks_eq_iff : ∀ {xs ys : List NToken}, cmpToks xs ys = .eq ↔ xs = ys := by
  intro xs
  induction xs with
  | nil => intro ys; cases ys <;> simp [cmpToks]
  | cons x xs ih =>
    intro ys
    cases ys with
    | nil => simp [cmpToks]
    | cons y ys =>
      simp only [cmpToks]
      rcases ho : cmpTok x y with _ | _ | _
      · simp [cmpTok_eq_iff.symm, ho]
      · have : x = y := cmpTok_eq_iff.mp ho
        subst this
        simp [ih]
      · simp [cmpTok_eq_iff.symm, ho]

theorem cmpToks_swap : ∀ (xs ys : List NToken), cmpToks ys xs = (cmpToks xs ys).swap := by
  intro xs
  induction xs with
  | nil => intro ys; cases ys <;> simp [cmpToks, Ordering.swap]
  | cons x xs ih =>
    intro ys
    cases ys with
    | nil => simp [cmpToks, Ordering.swap]
    | cons y ys =>
      simp only [cmpToks, cmpTok_swap x y]
      rcases cmpTok x y with _ | _ | _ <;> simp [Ordering.swap, ih]

theorem cmpToks_lt_trans : ∀ {xs ys zs : List NToken},
    cmpToks xs ys = .lt → cmpToks ys zs = .lt → cmpToks xs zs = .lt := by
  intro xs
  induction xs with
  | nil =>
    intro ys zs h₁ h₂
    cases ys with
    | nil => exact h₂
    | cons y ys => cases zs with
      | nil => simp [cmpToks] at h₂
      | cons z zs => simp [cmpToks]
  | cons x xs ih =>
    intro ys zs h₁ h₂
    cases ys with
    | nil => simp [cmpToks] at h₁
    | cons y ys =>
      cases zs with
      | nil => simp [cmpToks] at h₂
      | cons z zs =>
        simp only [cmpToks] at h₁ h₂ ⊢
        rcases hxy : cmpTok x y with _ | _ | _ <;> rw [hxy] at h₁ <;>
          rcases hyz : cmpTok y z with _ | _ | _ <;> rw [hyz] at h₂ <;>
          try simp_all
        · rw [cmpTok_lt_trans hxy hyz]
        · have := cmpTok_eq_iff.mp hyz; subst this; rw [hxy]
        · have := cmpTok_eq_iff.mp hxy; subst this; rw [hyz]
        · have := cmpTok_eq_iff.mp hxy; subst this
          have := cmpTok_eq_iff.mp hyz; subst this
          rw [cmpTok_eq_iff.mpr rfl]
          exact ih h₁ h₂

theorem natCompare_eq_iff {a b : String} : natCompare a b = .eq ↔ natKey a = natKey b :=
  cmpToks_eq_iff

theorem natCompare_swap (a b : String) : natCompare b a = (natCompare a b).swap :=
  cmpToks_swap _ _

theorem natLe_total (a b : String) : natLe a b = true ∨ natLe b a = true := by
  unfold natLe
  rw [natCompare_swap a b]
  rcases natCompare a b with _ | _ | _ <;> simp [Ordering.swap]

theorem natLe_trans {a b c : String} (h₁ : natLe a b = true) (h₂ : natLe b c = true) :
    natLe a c = true := by
  unfold natLe at *
  rcases hab : natCompare a b with _ | _ | _ <;> rw [hab] at h₁ <;>
    rcases hbc : natCompare b c with _ | _ | _ <;> rw [hbc] at h₂ <;> try simp_all
  · rw [natCompare] at *; rw [cmpToks_lt_trans hab hbc]
  · rw [natCompare] at *; rw [cmpToks_eq_iff.mp hbc] at hab; rw [hab]
  · rw [natCompare] at *; rw [← cmpToks_eq_iff.mp hab] at hbc; rw [hbc]
  · rw [natCompare] at *; rw [cmpToks_eq_iff.mp hab, cmpToks_eq_iff.mp hbc,
      cmpToks_eq_iff.mpr rfl]

/-! ## Sorting with the collator

`Array.prototype.sort(comparator)` is a stable sort (ECMAScript 2019);
`List.mergeSort` is Lean's stable sort, so sorting with the boolean
comparator `natLe` on the relevant key models the JS call exactly. -/

/-- The comparator handed to the JS sort, lifted along a key projection. -/
def keyLe (key : α → String) (a b : α) : Bool := natLe (key a) (key b)

theorem keyLe_trans (key : α → String) : ∀ (a b c : α),
    keyLe key a b = true → keyLe key b c = true → keyLe key a c = true :=
  fun _ _ _ h₁ h₂ => natLe_trans h₁ h₂

theorem keyLe_total (key : α → String) : ∀ (a b : α),
    (keyLe key a b || keyLe key b a) = true := by
  intro a b
  rcases natLe_total (key a) (key b) with h | h <;> simp [keyLe, h]

/-- No two entries of the list (at distinct positions) have collation-equal keys. -/
def KeyDistinct (key : α → String) (l : List α) : Prop :=
  l.Pairwise (fun a b => natCompare (key a) (key b) ≠ .eq)

theorem natCompare_ne_eq_symm {a b : String} (h : natCompare a b ≠ .eq) :
    natCompare b a ≠ .eq := by
  intro hc
  rw [natCompare_swap] at hc
  rcases ho : natCompare a b with _ | _ | _ <;> rw [ho] at hc <;>
    first
      | exact h ho
      | exact Ordering.noConfusion hc

/-- Sorting two permutations of the same tie-free list gives the same list:
with no collation-equal keys the sorted order is unique, so the outcome is
independent of the order in which the elements were accumulated. -/
theorem mergeSort_keyLe_eq_of_perm (key : α → String) {l₁ l₂ : List α}
    (hp : l₁.Perm l₂) (hd : KeyDistinct key l₁) :
    l₁.mergeSort (keyLe key) = l₂.mergeSort (keyLe key) := by
  have hs₁ : (l₁.mergeSort (keyLe key)).Pairwise (fun a b => keyLe key a b = true) :=
    List.sorted_mergeSort (keyLe_trans key) (keyLe_total key) l₁
  have hs₂ : (l₂.mergeSort (keyLe key)).Pairwise (fun a b => keyLe key a b = true) :=
    List.sorted_mergeSort (keyLe_trans key) (keyLe_total key) l₂
  have hperm : (l₁.mergeSort (keyLe key)).Perm (l₂.mergeSort (keyLe key)) :=
    ((List.mergeSort_perm l₁ _).trans hp).trans (List.mergeSort_perm l₂ _).symm
  have hsym : ∀ {x y : α}, natCompare (key x) (key y) ≠ .eq →
      natCompare (key y) (key x) ≠ .eq := fun h => natCompare_ne_eq_symm h
  have hd₁ : KeyDistinct key (l₁.mergeSort (keyLe key)) :=
    (List.Perm.pairwise_iff hsym (List.mergeSort_perm l₁ _)).mpr hd
  have hd₂ : KeyDistinct key (l₂.mergeSort (keyLe key)) := by
    have hdl₂ : KeyDistinct key l₂ := (List.Perm.pairwise_iff hsym hp).mp hd
    exact (List.Perm.pairwise_iff hsym (List.mergeSort_perm l₂ _)).mpr hdl₂
  have hstrict₁ := hs₁.and hd₁
  have hstrict₂ := hs₂.and hd₂
  haveI : IsAntisymm α (fun a b =>
      keyLe key a b = true ∧ natCompare (key a) (key b) ≠ .eq) := by
    constructor
    intro a b hab hba
    exfalso
    rcases hab with ⟨hab1, hab2⟩
    rcases hba with ⟨hba1, hba2⟩
    unfold keyLe natLe at hab1 hba1
    rcases ho : natCompare (key a) (key b) with _ | _ | _
    · have := natCompare_swap (key a) (key b)
      rw [ho] at this
      rw [this] at hba1
      exact Bool.noConfusion hba1
    · exact hab2 ho
    · rw [ho] at hab1
      exact Bool.noConfusion hab1
  exact List.eq_of_perm_of_sorted hperm hstrict₁ hstrict₂

unseal List.merge List.mergeSort in
/-- Sanity check of the collation model on the spec's naming example. -/
theorem natSort_example : List.mergeSort ["b_2.png", "a_1.png", "a_10.png"] (keyLe id) =
    ["a_1.png", "a_10.png", "b_2.png"] := by decide

/-- Sanity check: digit runs compare numerically ("img2" before "img10"). -/
theorem natCompare_numeric_example : natCompare "img2" "img10" = .lt := by decide

/-- Sanity check: the collation is case-insensitive, so names differing only
in case are ties. -/
theorem natCompare_case_tie_example : natCompare "A_1.png" "a_1.png" = .eq := by decide

/-! ## Data model (`src/types.ts`) -/

/-- A JS `Blob` as the pipeline observes it: byte size and MIME type. -/
structure JsBlob where
  size : Nat
  type : String
deriving DecidableEq

/-- `ProcessedFile` from `src/types.ts`. -/
structure ProcessedFile where
  originalName : String
  newName : String
  blob : JsBlob
  folder : String
  size : Nat
  sourceUrl : Option String := none
deriving DecidableEq

/-- The status union of `BatchSummary`. -/
inductive SummaryStatus where
  | Success
  | Partial
  | Failed
deriving DecidableEq

/-- `BatchSummary` from `src/types.ts`. -/
structure BatchSummary where
  styleName : String
  sourceLink : String
  status : SummaryStatus
  filesFound : Nat
  notes : String
deriving DecidableEq

/-- `DriveFile` from `src/types.ts`. -/
structure DriveFile where
  id : String
  name : String
  mimeType : String
  parents : List String := []
deriving DecidableEq

/-! ## `smartFetch` (`src/services/fileProcessor.ts`, lines 10-45) -/

/-- What one `fetch(engineUrl, { signal })` call does, as the caller observes
it: either the promise rejects with an error carrying a `name` (an abort
surfaces as `name = "AbortError"`), or it resolves to a response with an `ok`
flag whose body reads as `blob`. -/
inductive FetchOutcome where
  | thrown (name : String)
  | resp (ok : Bool) (blob : JsBlob)
deriving DecidableEq

/-- Result of `smartFetch`: a returned blob, or a thrown error
(`name` is the JS error's name, `msg` its message). -/
inductive SFResult where
  | ok (b : JsBlob)
  | thrown (name msg : String)
deriving DecidableEq

/-- Upper-case hexadecimal digit. -/
def hexDigit (n : Nat) : Char :=
  if n < 10 then Char.ofNat ('0'.toNat + n) else Char.ofNat ('A'.toNat + n - 10)

/-- UTF-8 bytes of a Unicode scalar value. -/
def utf8Bytes (n : Nat) : List Nat :=
  if n < 0x80 then [n]
  else if n < 0x800 then [0xC0 + n / 64, 0x80 + n % 64]
  else if n < 0x10000 then [0xE0 + n / 4096, 0x80 + n / 64 % 64, 0x80 + n % 64]
  else [0xF0 + n / 262144, 0x80 + n / 4096 % 64, 0x80 + n / 64 % 64, 0x80 + n % 64]

/-- Characters `encodeURIComponent` leaves unescaped. -/
def uriUnreserved (c : Char) : Bool :=
  c.isAlphanum || c = '-' || c = '_' || c = '.' || c = '!' || c = '~' ||
    c = '*' || c = '\'' || c = '(' || c = ')'

/-- JS `encodeURIComponent`. -/
def encodeURIComponent (s : String) : String :=
  ⟨s.data.foldr
    (fun c acc =>
      (if uriUnreserved c then [c]
       else (utf8Bytes c.toNat).foldr
         (fun b a => '%' :: hexDigit (b / 16) :: hexDigit (b % 16) :: a) []) ++ acc)
    []⟩

/-- The Dropbox share-link normalization at the top of `smartFetch`
("Dropbox Logic: Force direct download"). -/
def dropboxNormalize (t0 : String) : String :=
  if sIncludes t0 "dropbox.com" then
    let t1 := replaceFirst t0 "www.dropbox.com" "dl.dropboxusercontent.com"
    if sIncludes t1 "dl=0" then replaceFirst t1 "dl=0" "dl=1"
    else if sIncludes t1 "dl=1" then t1
    else t1 ++ (if sIncludes t1 "?" then "&" else "?") ++ "dl=1"
  else t0

/-- The ordered "industrial proxy sequence" of `smartFetch`. -/
def engines (url : String) : List String :=
  let target := dropboxNormalize (jsTrim url)
  ["https://wsrv.nl/?url=" ++ encodeURIComponent target ++ "&output=jpg&q=100",
   "https://corsproxy.io/?" ++ encodeURIComponent target,
   "https://api.allorigins.win/raw?url=" ++ encodeURIComponent target,
   target]

/-- The per-strategy acceptance test: `blob.size > 100 && !blob.type.includes('html')`. -/
def blobAccepted (b : JsBlob) : Bool :=
  decide (b.size > 100) && !(sIncludes b.type "html")

/-- The `for (const engineUrl of engines)` loop of `smartFetch`: a rejection
whose name is `AbortError` is re-thrown, any other rejection and any
unacceptable response fall through to the next engine, and exhausting the
list throws `Target blocked or unreachable.`. -/
def smartFetchGo (oracle : String → FetchOutcome) : List String → SFResult
  | [] => .thrown "Error" "Target blocked or unreachable."
  | u :: rest =>
    match oracle u with
    | .thrown nm => if nm = "AbortError" then .thrown nm "" else smartFetchGo oracle rest
    | .resp isOk b =>
      if isOk then
        if blobAccepted b then .ok b else smartFetchGo oracle rest
      else smartFetchGo oracle rest

/-- `smartFetch` itself; `oracle` gives the network's response to each
engine URL. -/
def smartFetch (oracle : String → FetchOutcome) (url : String) : SFResult :=
  smartFetchGo oracle (engines url)

/-- A strategy outcome that fails `smartFetch`'s acceptance test without
aborting: a non-abort rejection, a non-ok response, a too-small body, or an
HTML content type. -/
def strategyFails : FetchOutcome → Prop
  | .thrown nm => nm ≠ "AbortError"
  | .resp isOk b => isOk = false ∨ b.size ≤ 100 ∨ sIncludes b.type "html" = true

/-! ## `getExtension` (`src/services/fileProcessor.ts`, lines 47-54) -/

/-- The `mimeMap` lookup in `getExtension`. -/
def mimeExt (t : String) : Option String :=
  if t = "image/jpeg" then some "jpg"
  else if t = "image/png" then some "png"
  else if t = "image/gif" then some "gif"
  else if t = "image/webp" then some "webp"
  else if t = "image/bmp" then some "bmp"
  else none

/-- The extension allowlist in `getExtension`. -/
def knownExts : List String := ["jpg", "jpeg", "png", "gif", "webp", "bmp"]

/-- `getExtension(blob, url)`. -/
def getExtension (blob : JsBlob) (url : String) : String :=
  match mimeExt blob.type with
  | some e => e
  | none =>
    let base : List Char := url.data.takeWhile (fun c => !(c = '#' || c = '?'))
    let rawExt := jsToLower ⟨(splitOnChar '.' base).getLastD []⟩
    let urlExt := if rawExt = "" then "jpg" else rawExt
    if knownExts.contains urlExt then urlExt else "jpg"

/-! ## `downloadBatch` (`src/services/fileProcessor.ts`, lines 56-88)

The runner is cooperative JS: between two `await`s a worker runs
atomically.  Its atomic segments are (a) check abort / dequeue, (b) exit at
an empty queue, (c) exit after observing the abort flag, and (d) resume
after the awaited producer settles, pushing the result or bumping the
failure counter.  `BatchStep` has one constructor per segment plus one for
the external cancellation signal firing. -/

/-- The runner's mutable state: the job queue, how many workers sit at the
loop head, the jobs currently awaited, the accumulators, and the signal. -/
structure BatchState (T R : Type) where
  queue : List (T × Nat)
  idle : Nat
  inflight : List (T × Nat)
  results : List R
  failed : Nat
  done : Nat
  aborted : Bool

/-- State at entry of `downloadBatch`: every job queued in order with its
index, `Math.min(concurrency, items.length)` workers at the loop head. -/
def downloadBatchInit (T R : Type) (items : List T) (concurrency : Nat) : BatchState T R :=
  { queue := items.enum.map (fun p => (p.2, p.1)),
    idle := Nat.min concurrency items.length,
    inflight := [],
    results := [],
    failed := 0,
    done := 0,
    aborted := false }

/-- One atomic transition of a `downloadBatch` run.  `produce` fixes, for
each job descriptor, whether `downloadFn` eventually resolves (`some r`) or
rejects (`none`). -/
inductive BatchStep {T R : Type} (produce : T × Nat → Option R) :
    BatchState T R → BatchState T R → Prop where
  | signalAbort (s : BatchState T R) (h : s.aborted = false) :
      BatchStep produce s { s with aborted := true }
  | dequeue (s : BatchState T R) (t : T × Nat) (rest : List (T × Nat)) (i : Nat)
      (hq : s.queue = t :: rest) (hi : s.idle = i + 1) (ha : s.aborted = false) :
      BatchStep produce s { s with queue := rest, idle := i, inflight := t :: s.inflight }
  | exitEmpty (s : BatchState T R) (i : Nat) (hq : s.queue = []) (hi : s.idle = i + 1) :
      BatchStep produce s { s with idle := i }
  | exitAborted (s : BatchState T R) (i : Nat) (ha : s.aborted = true) (hi : s.idle = i + 1) :
      BatchStep produce s { s with idle := i }
  | settleOk (s : BatchState T R) (t : T × Nat) (l₁ l₂ : List (T × Nat)) (r : R)
      (hin : s.inflight = l₁ ++ t :: l₂) (hp : produce t = some r) :
      BatchStep produce s
        { s with inflight := l₁ ++ l₂, results := s.results ++ [r],
                 idle := s.idle + 1, done := s.done + 1 }
  | settleErr (s : BatchState T R) (t : T × Nat) (l₁ l₂ : List (T × Nat))
      (hin : s.inflight = l₁ ++ t :: l₂) (hp : produce t = none) :
      BatchStep produce s
        { s with inflight := l₁ ++ l₂, failed := s.failed + 1,
                 idle := s.idle + 1, done := s.done + 1 }

/-- Finitely many `BatchStep`s. -/
inductive BatchReaches {T R : Type} (produce : T × Nat → Option R) :
    BatchState T R → BatchState T R → Prop where
  | refl (s : BatchState T R) : BatchReaches produce s s
  | tail {s t u : BatchState T R} :
      BatchReaches produce s t → BatchStep produce t u → BatchReaches produce s u

/-- The run has returned: every worker has exited and nothing is awaited.
(`Promise.all(workers)` has resolved.) -/
def BatchFinal {T R : Type} (s : BatchState T R) : Prop :=
  s.idle = 0 ∧ s.inflight = []

/-- Every dequeued job sits in exactly one of `results`, the failure count,
or the in-flight set; queued jobs are still whole.  This sum is the step
invariant behind conservation. -/
def jobAccount {T R : Type} (s : BatchState T R) : Nat :=
  s.results.length + s.failed + s.queue.length + s.inflight.length

theorem batchStep_jobAccount {T R : Type} {p : T × Nat → Option R}
    {s s' : BatchState T R} (h : BatchStep p s s') : jobAccount s' = jobAccount s := by
  cases h with
  | signalAbort h => rfl
  | dequeue t rest i hq hi ha =>
    simp only [jobAccount, hq, List.length_cons]
    omega
  | exitEmpty i hq hi => rfl
  | exitAborted i ha hi => rfl
  | settleOk t l₁ l₂ r hin hp =>
    simp [jobAccount, hin]
    omega
  | settleErr t l₁ l₂ hin hp =>
    simp [jobAccount, hin]
    omega

theorem batchReaches_invariant {T R : Type} {p : T × Nat → Option R}
    (P : BatchState T R → Prop)
    (hstep : ∀ {s s' : BatchState T R}, BatchStep p s s' → P s → P s')
    {s₀ s : BatchState T R} (h : BatchReaches p s₀ s) (h₀ : P s₀) : P s := by
  induction h with
  | refl => exact h₀
  | tail hr hs ih => exact hstep hs ih

theorem batchReaches_trans {T R : Type} {p : T × Nat → Option R}
    {a b c : BatchState T R} (h₁ : BatchReaches p a b) (h₂ : BatchReaches p b c) :
    BatchReaches p a c := by
  induction h₂ with
  | refl => exact h₁
  | tail hr hs ih => exact .tail ih hs

theorem batchReaches_jobAccount {T R : Type} {p : T × Nat → Option R}
    {s₀ s : BatchState T R} (h : BatchReaches p s₀ s) : jobAccount s = jobAccount s₀ :=
  batchReaches_invariant (fun u => jobAccount u = jobAccount s₀)
    (fun hs heq => (batchStep_jobAccount hs).trans heq) h rfl

/-- The key drain property: in a state where the signal never fired, if
every worker has exited and nothing is in flight, the queue must be empty —
a worker only exits either at an empty queue or after observing the abort. -/
def NoAbortDrained {T R : Type} (s : BatchState T R) : Prop :=
  s.aborted = false → s.idle = 0 → s.inflight = [] → s.queue = []

theorem batchStep_drained {T R : Type} {p : T × Nat → Option R}
    {s s' : BatchState T R} (h : BatchStep p s s') (_hP : NoAbortDrained s) :
    NoAbortDrained s' := by
  cases h with
  | signalAbort h => intro ha; exact absurd ha (by simp)
  | dequeue t rest i hq hi ha =>
    intro _ _ hin
    exact absurd hin (by simp)
  | exitEmpty i hq hi => intro _ _ _; exact hq
  | exitAborted i ha hi =>
    intro ha'
    rw [show ({ s with idle := i } : BatchState T R).aborted = s.aborted from rfl, ha] at ha'
    exact absurd ha' (by simp)
  | settleOk t l₁ l₂ r hin hp =>
    intro _ hidle
    exact absurd hidle (by simp)
  | settleErr t l₁ l₂ hin hp =>
    intro _ hidle
    exact absurd hidle (by simp)

theorem downloadBatchInit_drained (T R : Type) (items : List T) (W : Nat) (hW : 1 ≤ W) :
    NoAbortDrained (downloadBatchInit T R items W) := by
  intro _ hidle _
  have hmin : Nat.min W items.length = 0 := hidle
  have hlen : items.length = 0 := by
    by_cases hl : items.length = 0
    · exact hl
    · have h1 : 1 ≤ Nat.min W items.length := le_min hW (by omega)
      omega
  rcases List.eq_nil_of_length_eq_zero hlen with rfl
  rfl

/-- The worker-cap invariant: workers at the loop head plus awaited producer
calls never exceed the `Math.min(concurrency, items.length)` workers created. -/
def WorkerCap {T R : Type} (W N : Nat) (s : BatchState T R) : Prop :=
  s.idle + s.inflight.length ≤ Nat.min W N

theorem batchStep_cap {T R : Type} {p : T × Nat → Option R} {W N : Nat}
    {s s' : BatchState T R} (h : BatchStep p s s') (hc : WorkerCap W N s) :
    WorkerCap W N s' := by
  cases h with
  | signalAbort h => exact hc
  | dequeue t rest i hq hi ha =>
    simp only [WorkerCap, List.length_cons, hi] at hc ⊢
    omega
  | exitEmpty i hq hi =>
    simp only [WorkerCap, hi] at hc ⊢
    omega
  | exitAborted i ha hi =>
    simp only [WorkerCap, hi] at hc ⊢
    omega
  | settleOk t l₁ l₂ r hin hp =>
    simp [WorkerCap, hin] at hc ⊢
    omega
  | settleErr t l₁ l₂ hin hp =>
    simp [WorkerCap, hin] at hc ⊢
    omega

theorem batchStep_results_extend {T R : Type} {p : T × Nat → Option R}
    {s s' : BatchState T R} (h : BatchStep p s s') :
    ∃ tl, s'.results = s.results ++ tl := by
  cases h with
  | settleOk t l₁ l₂ r hin hp => exact ⟨[r], rfl⟩
  | signalAbort h => exact ⟨[], by simp⟩
  | dequeue t rest i hq hi ha => exact ⟨[], by simp⟩
  | exitEmpty i hq hi => exact ⟨[], by simp⟩
  | exitAborted i ha hi => exact ⟨[], by simp⟩
  | settleErr t l₁ l₂ hin hp => exact ⟨[], by simp⟩

theorem batchReaches_results_extend {T R : Type} {p : T × Nat → Option R}
    {s₀ s : BatchState T R} (h : BatchReaches p s₀ s) :
    ∃ tl, s.results = s₀.results ++ tl := by
  induction h with
  | refl => exact ⟨[], by simp⟩
  | tail hr hs ih =>
    rcases ih with ⟨tl, htl⟩
    rcases batchStep_results_extend hs with ⟨tl', htl'⟩
    exact ⟨tl ++ tl', by rw [htl', htl, List.append_assoc]⟩

theorem batchStep_queue_frozen {T R : Type} {p : T × Nat → Option R}
    {s s' : BatchState T R} (h : BatchStep p s s') (ha : s.aborted = true) :
    s'.queue = s.queue := by
  cases h with
  | dequeue t rest i hq hi ha' => rw [ha'] at ha; exact absurd ha (by simp)
  | signalAbort h => rfl
  | exitEmpty i hq hi => rfl
  | exitAborted i ha hi => rfl
  | settleOk t l₁ l₂ r hin hp => rfl
  | settleErr t l₁ l₂ hin hp => rfl

theorem downloadBatchInit_jobAccount (T R : Type) (items : List T) (W : Nat) :
    jobAccount (downloadBatchInit T R items W) = items.length := by
  simp [jobAccount, downloadBatchInit]

/-- Claim C1: for every job list of length N, every concurrency ≥ 1 and every
producer, any reachable state of a `downloadBatch` run satisfies
`results.length + failed + |queue| + |inflight| = N` (each dequeued job
contributes exactly one of result or failure), hence
`results.length + failed ≤ N`; and a run that fully drains
(all workers exited, nothing in flight) with the cancellation signal never
fired ends with `results.length + failed = N`. -/
theorem downloadBatch_conservation {T R : Type} (items : List T) (W : Nat)
    (produce : T × Nat → Option R) (s : BatchState T R)
    (hreach : BatchReaches produce (downloadBatchInit T R items W) s) :
    s.results.length + s.failed + s.queue.length + s.inflight.length = items.length ∧
    s.results.length + s.failed ≤ items.length ∧
    (1 ≤ W → BatchFinal s → s.aborted = false →
      s.results.length + s.failed = items.length) := by
  have hacc : jobAccount s = items.length := by
    rw [batchReaches_jobAccount hreach, downloadBatchInit_jobAccount]
  refine ⟨hacc, by unfold jobAccount at hacc; omega, ?_⟩
  intro hW hfin hab
  have hdr : NoAbortDrained s :=
    batchReaches_invariant NoAbortDrained (fun hs hp => batchStep_drained hs hp) hreach
      (downloadBatchInit_drained T R items W hW)
  have hq : s.queue = [] := hdr hab hfin.1 hfin.2
  unfold jobAccount at hacc
  rw [hq, hfin.2] at hacc
  simpa using hacc

/-- Concrete one-job run used by the witnesses: dequeue, settle
successfully, exit at the empty queue. -/
theorem batchExampleRunA :
    BatchReaches (T := Unit) (R := Nat) (fun _ => some 0)
      (downloadBatchInit Unit Nat [()] 1) ⟨[], 0, [], [0], 0, 1, false⟩ := by
  have h1 : BatchStep (T := Unit) (R := Nat) (fun _ => some 0)
      (downloadBatchInit Unit Nat [()] 1) ⟨[], 0, [((), 0)], [], 0, 0, false⟩ :=
    BatchStep.dequeue _ ((), 0) [] 0 rfl rfl rfl
  have h2 : BatchStep (T := Unit) (R := Nat) (fun _ => some 0)
      ⟨[], 0, [((), 0)], [], 0, 0, false⟩ ⟨[], 1, [], [0], 0, 1, false⟩ :=
    BatchStep.settleOk _ ((), 0) [] [] 0 rfl rfl
  have h3 : BatchStep (T := Unit) (R := Nat) (fun _ => some 0)
      ⟨[], 1, [], [0], 0, 1, false⟩ ⟨[], 0, [], [0], 0, 1, false⟩ :=
    BatchStep.exitEmpty _ 0 rfl rfl
  exact .tail (.tail (.tail (.refl _) h1) h2) h3

/-- Witness for C1: the concrete drained run over one job ends with
`results.length + failed = 1`. -/
theorem downloadBatch_conservation_witness :
    ([0] : List Nat).length + 0 = [()].length :=
  (downloadBatch_conservation [()] 1 (fun _ => some 0) ⟨[], 0, [], [0], 0, 1, false⟩
    batchExampleRunA).2.2 (by omega) ⟨rfl, rfl⟩ rfl

/-- Concrete cancelled two-job run: dequeue and settle the first job, then
the signal fires and the worker exits without touching the second job. -/
theorem batchExampleRunB :
    BatchReaches (T := Unit) (R := Nat) (fun _ => some 0)
      (downloadBatchInit Unit Nat [(), ()] 1) ⟨[((), 1)], 1, [], [0], 0, 1, true⟩ := by
  have h1 : BatchStep (T := Unit) (R := Nat) (fun _ => some 0)
      (downloadBatchInit Unit Nat [(), ()] 1) ⟨[((), 1)], 0, [((), 0)], [], 0, 0, false⟩ :=
    BatchStep.dequeue _ ((), 0) [((), 1)] 0 rfl rfl rfl
  have h2 : BatchStep (T := Unit) (R := Nat) (fun _ => some 0)
      ⟨[((), 1)], 0, [((), 0)], [], 0, 0, false⟩ ⟨[((), 1)], 1, [], [0], 0, 1, false⟩ :=
    BatchStep.settleOk _ ((), 0) [] [] 0 rfl rfl
  have h3 : BatchStep (T := Unit) (R := Nat) (fun _ => some 0)
      ⟨[((), 1)], 1, [], [0], 0, 1, false⟩ ⟨[((), 1)], 1, [], [0], 0, 1, true⟩ :=
    BatchStep.signalAbort _ rfl
  exact .tail (.tail (.tail (.refl _) h1) h2) h3

/-- The cancelled run's final step: the worker observes the abort and exits. -/
theorem batchExampleRunB_exit :
    BatchReaches (T := Unit) (R := Nat) (fun _ => some 0)
      ⟨[((), 1)], 1, [], [0], 0, 1, true⟩ ⟨[((), 1)], 0, [], [0], 0, 1, true⟩ :=
  .tail (.refl _) (BatchStep.exitAborted _ 0 rfl rfl)

/-- Claim C7: once the cancellation signal is observed no further job is dequeued
(the abort check precedes each dequeue, so every step from an aborted state
leaves the queue unchanged); every result resolved before any later point is
retained (`results` only ever grows by appending); and the run still reaches
a normal final state, whose counts satisfy
`results.length + failed < N` whenever at least one job was never dequeued. -/
theorem downloadBatch_cancellation {T R : Type} (items : List T) (W : Nat)
    (produce : T × Nat → Option R) (s s' : BatchState T R)
    (hmid : BatchReaches produce (downloadBatchInit T R items W) s)
    (hlater : BatchReaches produce s s') :
    (∃ tl, s'.results = s.results ++ tl) ∧
    (s.aborted = true → ∀ u, BatchStep produce s u → u.queue = s.queue) ∧
    (BatchFinal s' → s'.queue ≠ [] →
      s'.results.length + s'.failed < items.length) := by
  refine ⟨batchReaches_results_extend hlater, fun ha u hu => batchStep_queue_frozen hu ha, ?_⟩
  intro hfin hq
  have hacc : jobAccount s' = items.length := by
    rw [batchReaches_jobAccount (batchReaches_trans hmid hlater),
      downloadBatchInit_jobAccount]
  unfold jobAccount at hacc
  rw [hfin.2] at hacc
  have : 1 ≤ s'.queue.length := by
    cases hql : s'.queue with
    | nil => exact absurd hql hq
    | cons a l => simp [hql]
  omega

/-- Witness for C7: in the concrete cancelled run, the resolved result is
retained, the frozen state dequeues nothing further, and the final counts
are strictly below the job count. -/
theorem downloadBatch_cancellation_witness :
    (∃ tl, ([0] : List Nat) = [0] ++ tl) ∧
    (([0] : List Nat).length + 0 < [(), ()].length) := by
  have h := downloadBatch_cancellation [(), ()] 1 (fun _ => some 0)
    ⟨[((), 1)], 1, [], [0], 0, 1, true⟩ ⟨[((), 1)], 0, [], [0], 0, 1, true⟩
    batchExampleRunB batchExampleRunB_exit
  exact ⟨h.1, h.2.2 ⟨rfl, rfl⟩ (by simp)⟩

/-- Claim C8: exactly `Math.min(concurrency, N)` worker tasks are created, and in
every reachable state the workers at the loop head plus the producer calls
in flight still number at most `min(concurrency, N)` — in particular never
more than `min(concurrency, N)` producer invocations are in flight
simultaneously.  Each in-flight entry is one worker's single awaited call:
a worker re-enters the loop only after its previous call settled. -/
theorem downloadBatch_concurrency_cap {T R : Type} (items : List T) (W : Nat)
    (produce : T × Nat → Option R) (s : BatchState T R)
    (hreach : BatchReaches produce (downloadBatchInit T R items W) s) :
    (downloadBatchInit T R items W).idle = Nat.min W items.length ∧
    s.idle + s.inflight.length ≤ Nat.min W items.length ∧
    s.inflight.length ≤ Nat.min W items.length := by
  have hcap : WorkerCap W items.length s :=
    batchReaches_invariant (WorkerCap W items.length)
      (fun hs hc => batchStep_cap hs hc) hreach
      (by unfold WorkerCap downloadBatchInit; simp)
  exact ⟨rfl, hcap, by unfold WorkerCap at hcap; omega⟩

/-- Witness for C8: after the dequeue step of the concrete run exactly one
producer call is in flight, within the cap `min(1, 1) = 1`. -/
theorem downloadBatch_concurrency_cap_witness :
    ([((), 0)] : List (Unit × Nat)).length ≤ Nat.min 1 [()].length := by
  have h1 : BatchStep (T := Unit) (R := Nat) (fun _ => some 0)
      (downloadBatchInit Unit Nat [()] 1) ⟨[], 0, [((), 0)], [], 0, 0, false⟩ :=
    BatchStep.dequeue _ ((), 0) [] 0 rfl rfl rfl
  exact (downloadBatch_concurrency_cap [()] 1 (fun _ => some 0)
    ⟨[], 0, [((), 0)], [], 0, 0, false⟩ (.tail (.refl _) h1)).2.2

theorem smartFetchGo_ok_inversion (oracle : String → FetchOutcome) :
    ∀ (us : List String) (b : JsBlob), smartFetchGo oracle us = .ok b →
      b.size > 100 ∧ sIncludes b.type "html" = false ∧
      ∃ u ∈ us, oracle u = .resp true b := by
  intro us
  induction us with
  | nil => intro b h; exact absurd h (by simp [smartFetchGo])
  | cons u rest ih =>
    intro b h
    unfold smartFetchGo at h
    rcases ho : oracle u with nm | ⟨isOk, blob⟩ <;> simp only [ho] at h
    · by_cases hab : nm = "AbortError"
      · rw [if_pos hab] at h; exact absurd h (by simp)
      · rw [if_neg hab] at h
        rcases ih b h with ⟨h1, h2, v, hv, hov⟩
        exact ⟨h1, h2, v, List.mem_cons_of_mem _ hv, hov⟩
    · by_cases hok : isOk = true
      · subst hok
        rw [if_pos rfl] at h
        by_cases hacc : blobAccepted blob = true
        · rw [if_pos hacc] at h
          cases h
          unfold blobAccepted at hacc
          have h1 := Bool.and_eq_true_iff.mp hacc
          refine ⟨by simpa using h1.1, by simpa using h1.2, u, List.mem_cons_self u rest, ho⟩
        · rw [if_neg hacc] at h
          rcases ih b h with ⟨h1, h2, v, hv, hov⟩
          exact ⟨h1, h2, v, List.mem_cons_of_mem _ hv, hov⟩
      · have : isOk = false := by
          cases isOk
          · rfl
          · exact absurd rfl hok
        subst this
        rw [if_neg (by simp)] at h
        rcases ih b h with ⟨h1, h2, v, hv, hov⟩
        exact ⟨h1, h2, v, List.mem_cons_of_mem _ hv, hov⟩

theorem smartFetchGo_exhausted (oracle : String → FetchOutcome) :
    ∀ (us : List String), (∀ u ∈ us, strategyFails (oracle u)) →
      smartFetchGo oracle us = .thrown "Error" "Target blocked or unreachable." := by
  intro us
  induction us with
  | nil => intro _; rfl
  | cons u rest ih =>
    intro hall
    have hu := hall u (List.mem_cons_self u rest)
    unfold smartFetchGo
    rcases ho : oracle u with nm | ⟨isOk, blob⟩ <;> simp only [ho] <;> rw [ho] at hu
    · unfold strategyFails at hu
      rw [if_neg hu]
      exact ih (fun v hv => hall v (List.mem_cons_of_mem _ hv))
    · unfold strategyFails at hu
      have hrest := ih (fun v hv => hall v (List.mem_cons_of_mem _ hv))
      rcases hu with hko | hsmall | hhtml
      · subst hko
        rw [if_neg (by simp)]
        exact hrest
      · cases isOk
        · rw [if_neg (by simp)]; exact hrest
        · rw [if_pos rfl]
          have : blobAccepted blob = false := by
            unfold blobAccepted
            have : decide (blob.size > 100) = false := by simpa using Nat.not_lt.mpr hsmall
            simp [this]
          rw [if_neg (by simp [this])]
          exact hrest
      · cases isOk
        · rw [if_neg (by simp)]; exact hrest
        · rw [if_pos rfl]
          have : blobAccepted blob = false := by
            unfold blobAccepted
            simp [hhtml]
          rw [if_neg (by simp [this])]
          exact hrest

/-- Claim C5: `smartFetch` returns a blob only if some engine in its ordered list
responded with HTTP success, a body of more than 100 bytes and a non-HTML
content type; and whenever all four strategies fail the acceptance test —
by a (non-abort) rejection, a non-ok status, a too-small body or an HTML
content type — it terminates with the `Target blocked or unreachable.`
error.  (An `AbortError` rejection instead propagates as such, the spec's
distinguished `Cancelled` outcome.) -/
theorem smartFetch_exhaustion_spec (oracle : String → FetchOutcome) (url : String) :
    (∀ b, smartFetch oracle url = .ok b →
      b.size > 100 ∧ sIncludes b.type "html" = false ∧
      ∃ u ∈ engines url, oracle u = .resp true b) ∧
    ((∀ u ∈ engines url, strategyFails (oracle u)) →
      smartFetch oracle url = .thrown "Error" "Target blocked or unreachable.") :=
  ⟨fun b h => smartFetchGo_ok_inversion oracle (engines url) b h,
   fun hall => smartFetchGo_exhausted oracle (engines url) hall⟩

/-- Witness for C5: a network where every URL yields a non-ok response makes
`smartFetch` throw the unreachable error, and a network where every URL
yields an acceptable image blob makes it return that blob. -/
theorem smartFetch_exhaustion_spec_witness :
    smartFetch (fun _ => .resp false ⟨0, ""⟩) "http://x/a.jpg" =
      .thrown "Error" "Target blocked or unreachable." ∧
    ((200 : Nat) > 100 ∧ sIncludes "image/jpeg" "html" = false ∧
      ∃ u ∈ engines "http://x/a.jpg",
        (fun (_ : String) => FetchOutcome.resp true ⟨200, "image/jpeg"⟩) u =
          .resp true ⟨200, "image/jpeg"⟩) := by
  constructor
  · exact (smartFetch_exhaustion_spec (fun _ => .resp false ⟨0, ""⟩) "http://x/a.jpg").2
      (fun u _ => Or.inl rfl)
  · exact (smartFetch_exhaustion_spec (fun _ => .resp true ⟨200, "image/jpeg"⟩)
      "http://x/a.jpg").1 ⟨200, "image/jpeg"⟩ (by decide)

/-! ## `fetchWithRetry` (`src/services/googleDrive.ts`, lines 25-64) -/

/-- What one `fetch` against the Drive API does: reject, or resolve with an
HTTP status. -/
inductive NetEvent where
  | raise
  | resp (status : Nat)
deriving DecidableEq

/-- Environment of one `fetchWithRetry` call: the module-level
`process.env.API_KEY` and the network's behaviour for each direct attempt
(indexed by loop counter) and for the `allorigins` proxy failover. -/
structure DriveEnv where
  apiKey : Option String
  direct : Nat → NetEvent
  proxy : NetEvent

/-- The message of the missing-credential guard at the top of `fetchWithRetry`. -/
def missingKeyMsg : String :=
  "System Config Error: API_KEY is missing. Add it to Netlify Environment Variables and REDEPLOY."

/-- The message of the final `throw` of `fetchWithRetry`. -/
def unreachableMsg : String :=
  "Drive API unreachable. Check internet connection and API Key status."

/-- `!DRIVE_API_KEY || DRIVE_API_KEY === 'undefined'` (a JS env var can be
absent, empty, or the literal string `"undefined"`). -/
def apiKeyMissing (k : Option String) : Bool :=
  match k with
  | none => true
  | some s => s = "" || s = "undefined"

/-- `Response.ok`: status in the 200-299 range. -/
def isOkStatus (s : Nat) : Bool := decide (200 ≤ s) && decide (s ≤ 299)

/-- The direct-attempt loop of `fetchWithRetry`: a 403 breaks to the proxy
failover, a 429 retries after backoff, an ok response returns, any other
status falls through to the next attempt, and a rejection on the last
attempt breaks to the failover.  `none` means the loop fell through. -/
def directLoop (env : DriveEnv) (retries : Nat) : Nat → Nat → Option Nat
  | _, 0 => none
  | i, fuel + 1 =>
    if i < retries then
      match env.direct i with
      | .raise => if i = retries - 1 then none else directLoop env retries (i + 1) fuel
      | .resp s =>
        if s = 403 then none
        else if s = 429 then directLoop env retries (i + 1) fuel
        else if isOkStatus s then some s
        else directLoop env retries (i + 1) fuel
    else none

/-- `fetchWithRetry(url, retries = 2)`.  The result is the returned
response's status, or the thrown error's message.  Note the proxy branch:
the 403-specific `throw` inside the `try` block is swallowed by the empty
`catch (e) {}`, so every non-ok proxy outcome ends in the final
`Drive API unreachable...` throw. -/
def fetchWithRetry (env : DriveEnv) (retries : Nat := 2) : Except String Nat :=
  if apiKeyMissing env.apiKey then .error missingKeyMsg
  else
    match directLoop env retries 0 retries with
    | some s => .ok s
    | none =>
      match env.proxy with
      | .raise => .error unreachableMsg
      | .resp s => if isOkStatus s then .ok s else .error unreachableMsg

/-! ## `fetchFolderContents` (`src/services/googleDrive.ts`, lines 97-131) -/

/-- The folder MIME marker. -/
def folderMime : String := "application/vnd.google-apps.folder"

/-- `s.startsWith(p)`. -/
def strStartsWith (s p : String) : Bool := leadMatch s.data p.data

/-- `s` ends with `p`. -/
def strEndsWith (s p : String) : Bool := leadMatch s.data.reverse p.data.reverse

/-- The extension alternatives of the crawler's image test
`/\.(jpg|jpeg|png|webp|gif|bmp|tiff|jfif)$/i`. -/
def imageExtsDrive : List String :=
  ["jpg", "jpeg", "png", "webp", "gif", "bmp", "tiff", "jfif"]

/-- The crawler's leaf-classification test: image extension (case
insensitive) or an `image/` MIME prefix. -/
def isImageItem (it : DriveFile) : Bool :=
  imageExtsDrive.any (fun e => strEndsWith (jsToLower it.name) ("." ++ e)) ||
    strStartsWith it.mimeType "image/"

/-- The crawl's shared accumulators: the `files` array and the `folders`
id-to-name registry, in insertion order. -/
structure CrawlAcc where
  files : List DriveFile
  folders : List (String × String)
deriving DecidableEq

mutual
/-- One `crawl(id, name)` call of `fetchFolderContents` over an abstract
listing `world` (the semantics of `fetchAllInFolder`): the registry entry is
written first; a listing error is caught, logged, and re-thrown only when
its message contains `API_KEY`; otherwise the direct image leaves are pushed
and the subfolders crawled.  The result pairs the accumulator state with the
pending exception, if the call threw; `none` is fuel exhaustion. -/
def crawlGo (world : String → Except String (List DriveFile)) :
    Nat → String → String → CrawlAcc → Option (CrawlAcc × Option String)
  | 0, _, _, _ => none
  | fuel + 1, id, nm, acc =>
    let acc1 : CrawlAcc := { acc with folders := acc.folders ++ [(id, nm)] }
    match world id with
    | .error msg =>
      some (acc1, if sIncludes msg "API_KEY" then some msg else none)
    | .ok items =>
      let leaves := items.filter (fun it => !(it.mimeType = folderMime) && isImageItem it)
      let acc2 : CrawlAcc := { acc1 with files := acc1.files ++ leaves }
      match crawlSubs world fuel (items.filter (fun it => it.mimeType = folderMime)) acc2 with
      | none => none
      | some (acc3, some m) =>
        some (acc3, if sIncludes m "API_KEY" then some m else none)
      | some (acc3, none) => some (acc3, none)
termination_by fuel _ _ _ => (fuel, 0)

/-- The `await Promise.all(subTasks)` of one crawl level: each subfolder is
crawled (each sub-call swallows its own non-fatal failures), and a thrown
(fatal) sub-error rejects the whole group. -/
def crawlSubs (world : String → Except String (List DriveFile)) :
    Nat → List DriveFile → CrawlAcc → Option (CrawlAcc × Option String)
  | _, [], acc => some (acc, none)
  | fuel, it :: rest, acc =>
    match crawlGo world fuel it.id it.name acc with
    | none => none
    | some (acc', some m) => some (acc', some m)
    | some (acc', none) => crawlSubs world fuel rest acc'
termination_by fuel items _ => (fuel, items.length + 1)
end

/-- `fetchFolderContents(folderId, rootName)`: runs the root crawl on empty
accumulators; an escaped (fatal) exception makes the returned promise
reject. -/
def fetchFolderContents (world : String → Except String (List DriveFile))
    (fuel : Nat) (folderId : String) (rootName : String := "Root") :
    Option (Except String CrawlAcc) :=
  match crawlGo world fuel folderId rootName ⟨[], []⟩ with
  | none => none
  | some (_, some m) => some (.error m)
  | some (acc, none) => some (.ok acc)

theorem crawlGo_fatal_only (world : String → Except String (List DriveFile)) :
    ∀ (fuel : Nat) (id nm : String) (acc acc' : CrawlAcc) (m : String),
      crawlGo world fuel id nm acc = some (acc', some m) →
      sIncludes m "API_KEY" = true := by
  intro fuel id nm acc acc' m h
  cases fuel with
  | zero => exact absurd h (by simp [crawlGo])
  | succ fuel =>
    simp only [crawlGo] at h
    split at h
    · rename_i msg hw
      split at h
      · rename_i hf
        injection h with h1
        injection h1 with h2 h3
        injection h3 with h4
        rw [← h4]
        exact hf
      · injection h with h1
        injection h1 with h2 h3
        exact Option.noConfusion h3
    · rename_i items hw
      split at h
      · exact Option.noConfusion h
      · rename_i acc3 m' hsub
        split at h
        · rename_i hf
          injection h with h1
          injection h1 with h2 h3
          injection h3 with h4
          rw [← h4]
          exact hf
        · injection h with h1
          injection h1 with h2 h3
          exact Option.noConfusion h3
      · rename_i acc3 hsub
        injection h with h1
        injection h1 with h2 h3
        exact Option.noConfusion h3

theorem crawlSubs_fatal_only (world : String → Except String (List DriveFile)) :
    ∀ (items : List DriveFile) (fuel : Nat) (acc acc' : CrawlAcc) (m : String),
      crawlSubs world fuel items acc = some (acc', some m) →
      sIncludes m "API_KEY" = true := by
  intro items
  induction items with
  | nil =>
    intro fuel acc acc' m h
    simp only [crawlSubs] at h
    injection h with h1
    injection h1 with h2 h3
    exact Option.noConfusion h3
  | cons it rest ih =>
    intro fuel acc acc' m h
    simp only [crawlSubs] at h
    split at h
    · exact Option.noConfusion h
    · rename_i acc0 m0 hg
      injection h with h1
      injection h1 with h2 h3
      injection h3 with h4
      rw [← h4]
      exact crawlGo_fatal_only world fuel it.id it.name acc acc0 m0 hg
    · rename_i acc0 hg
      exact ih fuel acc0 acc' m h

theorem fetchWithRetry_error_classes (env : DriveEnv) (retries : Nat) (m : String)
    (h : fetchWithRetry env retries = .error m) :
    (m = missingKeyMsg ∧ sIncludes m "API_KEY" = true) ∨
    (m = unreachableMsg ∧ sIncludes m "API_KEY" = false) := by
  unfold fetchWithRetry at h
  split at h
  · left
    injection h with h1
    exact ⟨h1.symm, by rw [← h1]; decide⟩
  · right
    split at h
    · exact Except.noConfusion h
    · split at h
      · injection h with h1
        exact ⟨h1.symm, by rw [← h1]; decide⟩
      · split at h
        · exact Except.noConfusion h
        · injection h with h1
          exact ⟨h1.symm, by rw [← h1]; decide⟩

/-- C4 (amended): within `fetchFolderContents` the fatal class that aborts
the whole crawl is exactly the class of errors whose message contains
`API_KEY` — the missing/unset-credential configuration error of
`fetchWithRetry`.  (1) the only exceptions that escape a crawl node mention
`API_KEY`; (2) a fatal listing error at any node (in particular the root)
propagates immediately, with that branch contributing zero assets; (3) a
non-fatal listing failure (including the rejected-credential
`Drive API unreachable...` outcome) is swallowed: the branch registers its
folder, contributes zero assets, and the crawl continues; (4) every error
`fetchWithRetry` produces is either the missing-key message (which contains
`API_KEY`) or the generic unreachable message (which does not). -/
theorem crawl_fatal_classification (world : String → Except String (List DriveFile))
    (fuel : Nat) (id nm : String) (acc : CrawlAcc) (m : String) :
    (∀ acc', crawlGo world fuel id nm acc = some (acc', some m) →
      sIncludes m "API_KEY" = true) ∧
    (world id = .error m → sIncludes m "API_KEY" = true →
      crawlGo world (fuel + 1) id nm acc =
        some ({ acc with folders := acc.folders ++ [(id, nm)] }, some m)) ∧
    (world id = .error m → sIncludes m "API_KEY" = false →
      crawlGo world (fuel + 1) id nm acc =
        some ({ acc with folders := acc.folders ++ [(id, nm)] }, none)) ∧
    (∀ env retries, fetchWithRetry env retries = .error m →
      (m = missingKeyMsg ∧ sIncludes m "API_KEY" = true) ∨
      (m = unreachableMsg ∧ sIncludes m "API_KEY" = false)) := by
  refine ⟨fun acc' h => crawlGo_fatal_only world fuel id nm acc acc' m h, ?_, ?_, ?_⟩
  · intro hw hf
    simp only [crawlGo, hw, if_pos hf]
  · intro hw hf
    simp only [crawlGo, hw, hf]
    simp
  · intro env retries h
    exact fetchWithRetry_error_classes env retries m h

/-- Counterexample for C4 as stated: a rejected credential (403 on every
direct attempt and on the proxy) produces the non-fatal
`Drive API unreachable...` error, and a crawl whose root listing fails with
that error RESOLVES with an empty asset list instead of rejecting. -/
theorem crawl_rejected_credential_not_fatal :
    fetchWithRetry ⟨some "key", fun _ => .resp 403, .resp 403⟩ 2 =
      .error unreachableMsg ∧
    sIncludes unreachableMsg "API_KEY" = false ∧
    fetchFolderContents (fun _ => .error unreachableMsg) 1 "root" "Root" =
      some (.ok ⟨[], [("root", "Root")]⟩) := by
  refine ⟨rfl, by decide, ?_⟩
  have h1 : crawlGo (fun _ => .error unreachableMsg) 1 "root" "Root" ⟨[], []⟩ =
      some (⟨[], [("root", "Root")]⟩, none) := by
    simp only [crawlGo]
    rw [if_neg (by decide)]
    simp
  unfold fetchFolderContents
  rw [h1]

/-- Witness for C4: the missing-credential error (which does contain
`API_KEY`) raised on the very first (root) container listing makes the crawl
reject immediately with that error. -/
theorem crawl_fatal_classification_witness :
    crawlGo (fun _ => .error missingKeyMsg) 1 "root" "Root" ⟨[], []⟩ =
      some (⟨[], [("root", "Root")]⟩, some missingKeyMsg) ∧
    fetchFolderContents (fun _ => .error missingKeyMsg) 1 "root" "Root" =
      some (.error missingKeyMsg) := by
  have h1 := (crawl_fatal_classification (fun _ => .error missingKeyMsg) 0 "root" "Root"
    ⟨[], []⟩ missingKeyMsg).2.1 rfl (by decide)
  refine ⟨h1, ?_⟩
  unfold fetchFolderContents
  rw [h1]

/-! ## `createFinalArchive` (`src/services/fileProcessor.ts`, lines 90-121) -/

/-- The member-name sequence of the archive `createFinalArchive` builds:
a fresh copy of `files` is sorted with `collator.compare(a.newName,
b.newName)`, each file is written under its `folder` directory in that
order, and when `summaries` is non-empty the `SYNC_REPORT.xlsx` artifact is
appended at the archive root. -/
def createFinalArchiveMembers (files : List ProcessedFile)
    (summaries : List BatchSummary) : List (String × String) :=
  let sortedFiles := files.mergeSort (keyLe (fun f => f.newName))
  sortedFiles.map (fun f => (f.folder, f.newName)) ++
    (if summaries.length > 0 then [("", "SYNC_REPORT.xlsx")] else [])

/-- `[...files]`: allocate a fresh array holding the same elements; the new
reference is the store's next slot. -/
def spreadCopy (heap : List (List ProcessedFile)) (r : Nat) :
    Nat × List (List ProcessedFile) :=
  (heap.length, heap ++ [heap.getD r []])

/-- `arr.sort(cmp)`: mutate the array behind reference `r` in place into its
stable-sorted permutation. -/
def sortInPlace (heap : List (List ProcessedFile)) (r : Nat) :
    List (List ProcessedFile) :=
  heap.set r ((heap.getD r []).mergeSort (keyLe (fun f => f.newName)))

/-- `createFinalArchive` with the caller's `files` array held in an explicit
array store: `const sortedFiles = [...files].sort(...)` copies first and
sorts only the copy.  Returns the member sequence and the final store. -/
def createFinalArchiveRun (heap : List (List ProcessedFile)) (filesRef : Nat)
    (summaries : List BatchSummary) :
    List (String × String) × List (List ProcessedFile) :=
  let copyRef := (spreadCopy heap filesRef).1
  let heap1 := (spreadCopy heap filesRef).2
  let heap2 := sortInPlace heap1 copyRef
  let sortedFiles := heap2.getD copyRef []
  (sortedFiles.map (fun f => (f.folder, f.newName)) ++
    (if summaries.length > 0 then [("", "SYNC_REPORT.xlsx")] else []), heap2)

/-- Claim C6 (amended): the archive member sequence is the same for any two
accumulation orders of the same assets, provided no two distinct assets have
collation-equal assigned names; with collation-equal names (e.g. names that
differ only in case) the stable sort preserves the accumulation order and
the sequences can differ. -/
theorem createFinalArchive_order_deterministic (files₁ files₂ : List ProcessedFile)
    (summaries : List BatchSummary) (hp : files₁.Perm files₂)
    (hd : KeyDistinct (fun f => f.newName) files₁) :
    createFinalArchiveMembers files₁ summaries =
      createFinalArchiveMembers files₂ summaries := by
  unfold createFinalArchiveMembers
  rw [mergeSort_keyLe_eq_of_perm (fun f => f.newName) hp hd]

unseal List.merge List.mergeSort in
/-- Counterexample for C6 as stated: two assets whose assigned names
differ only in case ("a_1.jpg" vs "A_1.jpg") compare equal under the
case-insensitive collation, so the stable sort keeps them in accumulation
order and the two push orders produce different member sequences. -/
theorem createFinalArchive_order_counterexample :
    ([⟨"x", "a_1.jpg", ⟨1, "image/jpeg"⟩, "G1", 1, none⟩,
      ⟨"y", "A_1.jpg", ⟨1, "image/jpeg"⟩, "G2", 1, none⟩] : List ProcessedFile).Perm
      [⟨"y", "A_1.jpg", ⟨1, "image/jpeg"⟩, "G2", 1, none⟩,
       ⟨"x", "a_1.jpg", ⟨1, "image/jpeg"⟩, "G1", 1, none⟩] ∧
    createFinalArchiveMembers
      [⟨"x", "a_1.jpg", ⟨1, "image/jpeg"⟩, "G1", 1, none⟩,
       ⟨"y", "A_1.jpg", ⟨1, "image/jpeg"⟩, "G2", 1, none⟩] [] ≠
    createFinalArchiveMembers
      [⟨"y", "A_1.jpg", ⟨1, "image/jpeg"⟩, "G2", 1, none⟩,
       ⟨"x", "a_1.jpg", ⟨1, "image/jpeg"⟩, "G1", 1, none⟩] [] := by
  constructor
  · decide
  · decide

/-- Witness for C6: the two push orders of the spec's scenario (distinct
names X.jpg, Y.jpg, Z.jpg) produce the identical member sequence. -/
theorem createFinalArchive_order_deterministic_witness :
    createFinalArchiveMembers
      [⟨"x", "X.jpg", ⟨1, "image/jpeg"⟩, "G", 1, none⟩,
       ⟨"y", "Y.jpg", ⟨1, "image/jpeg"⟩, "G", 1, none⟩,
       ⟨"z", "Z.jpg", ⟨1, "image/jpeg"⟩, "G", 1, none⟩] [] =
    createFinalArchiveMembers
      [⟨"z", "Z.jpg", ⟨1, "image/jpeg"⟩, "G", 1, none⟩,
       ⟨"x", "X.jpg", ⟨1, "image/jpeg"⟩, "G", 1, none⟩,
       ⟨"y", "Y.jpg", ⟨1, "image/jpeg"⟩, "G", 1, none⟩] [] :=
  createFinalArchive_order_deterministic _ _ []
    (by decide) (by unfold KeyDistinct; decide)

/-- Claim C10: `createFinalArchive` does not mutate its `files` argument — it
sorts a fresh copy, so after the call the caller's array holds the same
elements in the same order, while the member sequence comes from the sorted
copy. -/
theorem createFinalArchive_no_mutation (heap : List (List ProcessedFile))
    (filesRef : Nat) (summaries : List BatchSummary) (href : filesRef < heap.length) :
    ((createFinalArchiveRun heap filesRef summaries).2).getD filesRef [] =
      heap.getD filesRef [] ∧
    (createFinalArchiveRun heap filesRef summaries).1 =
      createFinalArchiveMembers (heap.getD filesRef []) summaries := by
  have hne : heap.length ≠ filesRef := by omega
  have hcopy : ((spreadCopy heap filesRef).2.set (spreadCopy heap filesRef).1
      (((spreadCopy heap filesRef).2.getD (spreadCopy heap filesRef).1 []).mergeSort
        (keyLe (fun f => f.newName)))).getD filesRef [] = heap.getD filesRef [] := by
    unfold spreadCopy
    rw [List.getD_eq_getElem?_getD, List.getElem?_set_ne hne,
      List.getElem?_append, if_pos href, ← List.getD_eq_getElem?_getD]
  have hread : (spreadCopy heap filesRef).2.getD (spreadCopy heap filesRef).1 [] =
      heap.getD filesRef [] := by
    unfold spreadCopy
    rw [List.getD_eq_getElem?_getD, List.getElem?_concat_length]
    rfl
  constructor
  · unfold createFinalArchiveRun sortInPlace
    exact hcopy
  · unfold createFinalArchiveRun sortInPlace createFinalArchiveMembers
    have hsorted : (((spreadCopy heap filesRef).2.set (spreadCopy heap filesRef).1
        (((spreadCopy heap filesRef).2.getD (spreadCopy heap filesRef).1 []).mergeSort
          (keyLe (fun f => f.newName)))).getD (spreadCopy heap filesRef).1 []) =
        (heap.getD filesRef []).mergeSort (keyLe (fun f => f.newName)) := by
      rw [List.getD_eq_getElem?_getD, List.getElem?_set_self
        (by unfold spreadCopy; simp), hread]
      rfl
    simp only [hsorted]

unseal List.merge List.mergeSort in
/-- Witness for C10: on a concrete one-array store the caller's slot is
unchanged by the call. -/
theorem createFinalArchive_no_mutation_witness :
    ((createFinalArchiveRun
        [[⟨"y", "B.jpg", ⟨1, "image/jpeg"⟩, "G", 1, none⟩,
          ⟨"x", "A.jpg", ⟨1, "image/jpeg"⟩, "G", 1, none⟩]] 0 []).2).getD 0 [] =
      [⟨"y", "B.jpg", ⟨1, "image/jpeg"⟩, "G", 1, none⟩,
       ⟨"x", "A.jpg", ⟨1, "image/jpeg"⟩, "G", 1, none⟩] :=
  (createFinalArchive_no_mutation _ 0 [] (by decide)).1

/-! ## Classifier naming (`src/components/Modules/AssetClassifier.tsx`, lines 71-92) -/

/-- A selected `File` as the classifier sees it: name, MIME type, byte size. -/
structure InputFile where
  name : String
  type : String
  size : Nat
deriving DecidableEq

/-- `file.name.split('.').pop()?.toLowerCase() || 'jpg'`. -/
def classifierExt (name : String) : String :=
  let rawExt := jsToLower ⟨(splitOnChar '.' name.data).getLastD []⟩
  if rawExt = "" then "jpg" else rawExt

/-- Step 2 of `classifyAndRenameFolder` for one group: sort the group's
files with `a.name.localeCompare(b.name, undefined, { numeric: true,
sensitivity: 'base' })` and rename the file at 0-based sorted position
`index` to `folderName_(index+1).ext`. -/
def renameGroup (folderName : String) (files : List InputFile) : List ProcessedFile :=
  let sortedInGroup := files.mergeSort (keyLe (fun f => f.name))
  sortedInGroup.mapIdx (fun index file =>
    { originalName := file.name,
      newName := folderName ++ "_" ++ toString (index + 1) ++ "." ++ classifierExt file.name,
      blob := ⟨file.size, file.type⟩,
      folder := folderName,
      size := file.size })

/-! ## Drive-flow naming (`src/components/Modules/DriveDownloader.tsx`, lines 76-106) -/

/-- Overwrite-or-append update of the `subFolderSequence` record. -/
def assocSet (l : List (String × Nat)) (k : String) (v : Nat) : List (String × Nat) :=
  match l with
  | [] => [(k, v)]
  | (k', v') :: rest => if k' = k then (k, v) :: rest else (k', v') :: assocSet rest k v

/-- One completed download's rename inside `processProductionBatch`: resolve
the parent folder name from the crawl registry, sanitize whitespace, bump
that folder's sequence counter, and produce
`[safeFolderName]_[seq].[ext]` under the appropriate zip path. -/
def driveRename (folders : List (String × String)) (folderId safeSkuName : String)
    (counters : List (String × Nat)) (df : DriveFile) (blob : JsBlob) :
    List (String × Nat) × ProcessedFile :=
  let ext := getExtension blob df.name
  let parentId := df.parents.headD folderId
  let folderName := ((folders.find? (fun p => p.1 = parentId)).map Prod.snd).getD safeSkuName
  let safeFolderName := collapseWs folderName
  let seq := ((counters.find? (fun p => p.1 = safeFolderName)).map Prod.snd).getD 0 + 1
  let finalFilename := safeFolderName ++ "_" ++ toString seq ++ "." ++ ext
  let zipPath := if parentId = folderId then safeSkuName
    else safeSkuName ++ "/" ++ safeFolderName
  (assocSet counters safeFolderName seq,
   { originalName := df.name, newName := finalFilename, blob := blob,
     folder := zipPath, size := blob.size })

/-- The Drive flow's naming over a whole batch: the sequence counters are
bumped in the order the downloads COMPLETE, so the assignment depends on the
completion order handed in. -/
def driveAssignNames (folders : List (String × String)) (folderId safeSkuName : String)
    (completed : List (DriveFile × JsBlob)) : List ProcessedFile :=
  (completed.foldl
    (fun (st : List (String × Nat) × List ProcessedFile) db =>
      let next := driveRename folders folderId safeSkuName st.1 db.1 db.2
      (next.1, st.2 ++ [next.2]))
    ([], [])).2

/-! ## Group outcome statuses (`WebDownloader.tsx` line 92, `DriveDownloader.tsx` line 122) -/

/-- Drive flow: `downloadedFiles.length > 0 ? (failed > 0 ? 'Partial' :
'Success') : 'Failed'`. -/
def driveGroupStatus (resolved failed : Nat) : SummaryStatus :=
  if resolved > 0 then (if failed > 0 then .Partial else .Success) else .Failed

/-- Web flow: `skuResults.length > 0 ? 'Success' : 'Failed'` — the `failed`
count is not consulted. -/
def webGroupStatus (resolved : Nat) : SummaryStatus :=
  if resolved > 0 then .Success else .Failed

/-! ## SKU-prefix grouping (`src/unnamed/part_005` lines 24-39,
`src/components/Modules/AssetCategorizer.tsx` lines 43-56) -/

/-- The regex class `[A-Z0-9]`. -/
def isUDChar (c : Char) : Bool := (decide ('A' ≤ c) && decide (c ≤ 'Z')) || c.isDigit

/-- The regex class `[a-z\s.]`. -/
def isStopChar (c : Char) : Bool :=
  (decide ('a' ≤ c) && decide (c ≤ 'z')) || wsChar c || c = '.'

/-- The lookahead `(?=[a-z\s.]|$)`: succeeds at the end of the input or
before a stop-class character. -/
def stopOkAt : List Char → Bool
  | [] => true
  | c :: _ => isStopChar c

/-- The lazy loop of `^([A-Z0-9]+?)(?=[a-z\s.]|$)` after its first mandatory
character: test the lookahead at the current position first, extend by one
`[A-Z0-9]` character only when it fails. -/
def lazyStepUD (acc : List Char) : List Char → Option (List Char)
  | [] => some acc
  | d :: rest' =>
    if isStopChar d then some acc
    else if isUDChar d then lazyStepUD (acc ++ [d]) rest'
    else none

/-- `name.match(/^([A-Z0-9]+?)(?=[a-z\s.]|$)/)`: the captured group, if the
regex matches. -/
def lazyUDMatch (cs : List Char) : Option (List Char) :=
  match cs with
  | [] => none
  | c :: rest => if isUDChar c then lazyStepUD [c] rest else none

/-- The final `^([a-zA-Z0-9]+)` fallback with `substring(0, 8)`, else the
reserved UNMATCHED bucket. -/
def alnumFallback (name : String) : String :=
  let an := name.data.takeWhile Char.isAlphanum
  if an.length ≥ 1 then ⟨an.take 8⟩ else "UNMATCHED"

/-- `extractSkuPrefix` of the part_005 classifier (the "Industrial Prefix
Detector" cascade); Lean name shortened from the source's. -/
def extractSku (name : String) : String :=
  if sIncludes name "_" then jsTrim ((jsSplit name '_').headD "")
  else if sIncludes name "-" then jsTrim ((jsSplit name '-').headD "")
  else if sIncludes name " " then jsTrim ((jsSplit name ' ').headD "")
  else
    let numericMatch := name.data.takeWhile Char.isDigit
    if numericMatch.length ≥ 2 then ⟨numericMatch⟩
    else
      match lazyUDMatch name.data with
      | some run => if run.length ≥ 2 then ⟨run⟩ else alnumFallback name
      | none => alnumFallback name

/-- The cascade as claim C9 words it, stated from the spec for comparison
with `extractSku`: stage (5) takes "a leading run of uppercase letters and
digits of length ≥ 2 ending before a lowercase/space/dot character" (or the
end of the name). -/
def cascadeSpec (name : String) : String :=
  if sIncludes name "_" then jsTrim ((jsSplit name '_').headD "")
  else if sIncludes name "-" then jsTrim ((jsSplit name '-').headD "")
  else if sIncludes name " " then jsTrim ((jsSplit name ' ').headD "")
  else
    let digits := name.data.takeWhile Char.isDigit
    if digits.length ≥ 2 then ⟨digits⟩
    else
      let run := name.data.takeWhile isUDChar
      if run.length ≥ 2 ∧ stopOkAt (name.data.dropWhile isUDChar) then ⟨run⟩
      else alnumFallback name

/-- The grouping rule of `processCategorization` (AssetCategorizer.tsx) and
of Step 1 of `classifyAndRenameFolder` (AssetClassifier.tsx): split on the
first underscore only; any filename without an underscore (or with an empty
trimmed part before it) goes to the UNMATCHED bucket. -/
def categorizerGroup (fileName : String) : String :=
  let parts := jsSplit fileName '_'
  if parts.length > 1 then
    let p0 := jsTrim (parts.headD "")
    if p0 ≠ "" then p0 else "UNMATCHED"
  else "UNMATCHED"

/-- The categorizer's acceptance filter: not a dotfile or `__` system entry,
and an image extension per `/\.(jpg|jpeg|png|webp|gif)$/i`. -/
def categorizerAccepts (fileName : String) : Bool :=
  !(strStartsWith fileName ".") && !(strStartsWith fileName "__") &&
    (["jpg", "jpeg", "png", "webp", "gif"].any
      (fun e => strEndsWith (jsToLower fileName) ("." ++ e)))

/-- Claim C2 (amended): the classifier flow's per-group naming is the 1-based
position in the natural, case-insensitive sort of the original filenames:
the asset at sorted position `i` is renamed `folderName_(i+1).ext`, and for
a tie-free group the whole assignment is invariant under permuting the
input listing.  The Drive flow does NOT follow this rule: its index is
assigned in download-completion order (see the counterexample), and the Web
flow numbers references by their input position. -/
theorem assignNames_natural_sort (folderName : String) (files₁ files₂ : List InputFile)
    (hp : files₁.Perm files₂) (hd : KeyDistinct (fun f => f.name) files₁) :
    renameGroup folderName files₁ = renameGroup folderName files₂ ∧
    ∀ i f, (files₁.mergeSort (keyLe (fun f => f.name)))[i]? = some f →
      (renameGroup folderName files₁)[i]? = some
        ({ originalName := f.name,
           newName := folderName ++ "_" ++ toString (i + 1) ++ "." ++ classifierExt f.name,
           blob := ⟨f.size, f.type⟩, folder := folderName, size := f.size,
           sourceUrl := none } : ProcessedFile) := by
  constructor
  · unfold renameGroup
    rw [mergeSort_keyLe_eq_of_perm (fun f => f.name) hp hd]
  · intro i f hf
    simp only [renameGroup]
    rw [List.getElem?_mapIdx, hf]
    rfl

/-- Counterexample for C2 as stated: in the Drive flow the sequence index
is bumped in download-completion order.  The same two assets in the same
folder, completed in the two possible orders, give "a_1.png" the name
SKU_1.png in one run and SKU_2.png in the other, although "a_1.png" comes
first in the natural sort both times. -/
theorem drive_naming_completion_order_counterexample :
    (driveAssignNames [("root", "SKU")] "root" "SKU"
        [(⟨"a1", "a_1.png", "image/png", ["root"]⟩, ⟨500, "image/png"⟩),
         (⟨"b2", "b_2.png", "image/png", ["root"]⟩, ⟨500, "image/png"⟩)]).map
        (fun f => (f.originalName, f.newName)) =
      [("a_1.png", "SKU_1.png"), ("b_2.png", "SKU_2.png")] ∧
    (driveAssignNames [("root", "SKU")] "root" "SKU"
        [(⟨"b2", "b_2.png", "image/png", ["root"]⟩, ⟨500, "image/png"⟩),
         (⟨"a1", "a_1.png", "image/png", ["root"]⟩, ⟨500, "image/png"⟩)]).map
        (fun f => (f.originalName, f.newName)) =
      [("b_2.png", "SKU_1.png"), ("a_1.png", "SKU_2.png")] := by
  constructor
  · decide
  · decide

unseal List.merge List.mergeSort in
/-- Witness for C2: the spec's example group in two listing orders maps
identically, and the mapping is a_1.png↦G_1.png, a_10.png↦G_2.png,
b_2.png↦G_3.png. -/
theorem assignNames_natural_sort_witness :
    renameGroup "G"
        [⟨"b_2.png", "image/png", 1⟩, ⟨"a_1.png", "image/png", 1⟩,
         ⟨"a_10.png", "image/png", 1⟩] =
      renameGroup "G"
        [⟨"a_10.png", "image/png", 1⟩, ⟨"b_2.png", "image/png", 1⟩,
         ⟨"a_1.png", "image/png", 1⟩] ∧
    (renameGroup "G"
        [⟨"b_2.png", "image/png", 1⟩, ⟨"a_1.png", "image/png", 1⟩,
         ⟨"a_10.png", "image/png", 1⟩]).map (fun f => (f.originalName, f.newName)) =
      [("a_1.png", "G_1.png"), ("a_10.png", "G_2.png"), ("b_2.png", "G_3.png")] := by
  refine ⟨(assignNames_natural_sort "G" _ _ (by decide)
    (by unfold KeyDistinct; decide)).1, by decide⟩

/-- Claim C3 (amended): for a fully drained nonempty group (`resolved + failed =
N`, `N > 0`) the Drive flow's status is Success iff all assets resolved,
Partial iff some but not all, Failed iff none; the Web flow's status is
Success iff at least one resolved and is never Partial — it collapses the
claim's some-but-not-all case into Success. -/
theorem group_status_spec (r f N : Nat) (hN : 0 < N) (hsum : r + f = N) :
    (driveGroupStatus r f = .Success ↔ r = N) ∧
    (driveGroupStatus r f = .Partial ↔ 0 < r ∧ r < N) ∧
    (driveGroupStatus r f = .Failed ↔ r = 0) ∧
    (∀ g, webGroupStatus g ≠ .Partial) ∧
    (webGroupStatus r = .Success ↔ 0 < r) := by
  unfold driveGroupStatus webGroupStatus
  refine ⟨?_, ?_, ?_, ?_, ?_⟩
  · split_ifs <;> simp <;> omega
  · split_ifs <;> simp <;> omega
  · split_ifs <;> simp <;> omega
  · intro g
    split_ifs <;> simp
  · split_ifs <;> simp <;> omega

/-- Counterexample for C3 as stated: a web-flow group with one resolved and
one failed reference (the spec's own end-to-end scenario) is recorded as
Success — never Partial — while the Drive flow records Partial. -/
theorem web_status_partial_counterexample :
    webGroupStatus 1 = .Success ∧ webGroupStatus 1 ≠ .Partial ∧
    driveGroupStatus 1 1 = .Partial := by
  refine ⟨rfl, by decide, rfl⟩

/-- Witness for C3: a fully successful two-asset group is Success in both
flows. -/
theorem group_status_spec_witness :
    driveGroupStatus 2 0 = .Success ∧ webGroupStatus 2 = .Success :=
  ⟨(group_status_spec 2 0 2 (by decide) rfl).1.mpr rfl,
   (group_status_spec 2 0 2 (by decide) rfl).2.2.2.2.mpr (by decide)⟩

theorem charLe_iff_toNat (a b : Char) : a ≤ b ↔ a.toNat ≤ b.toNat := by
  rw [Char.le_def]
  exact ge_iff_le

theorem charEq_iff_toNat (c d : Char) : c = d ↔ c.toNat = d.toNat :=
  ⟨fun h => by rw [h], charToNat_inj⟩

/-- The regex classes `[A-Z0-9]` and `[a-z\s.]` are disjoint, which is what
makes the lazy and the greedy readings of stage (5) coincide. -/
theorem stopChar_of_udChar {c : Char} (h : isUDChar c = true) : isStopChar c = false := by
  have hn : (65 ≤ c.toNat ∧ c.toNat ≤ 90) ∨ (48 ≤ c.toNat ∧ c.toNat ≤ 57) := by
    simp only [isUDChar, Bool.or_eq_true, Bool.and_eq_true, decide_eq_true_eq,
      charLe_iff_toNat, Char.isDigit] at h
    simpa using h
  rw [Bool.eq_false_iff]
  intro hs
  simp only [isStopChar, wsChar, Bool.or_eq_true, Bool.and_eq_true, decide_eq_true_eq,
    charLe_iff_toNat, charEq_iff_toNat] at hs
  simp only [show ('a').toNat = 97 from rfl, show ('z').toNat = 122 from rfl,
    show (' ').toNat = 32 from rfl, show ('\t').toNat = 9 from rfl,
    show ('\n').toNat = 10 from rfl, show ('\r').toNat = 13 from rfl,
    show ('\x0b').toNat = 11 from rfl, show ('\x0c').toNat = 12 from rfl,
    show ('.').toNat = 46 from rfl] at hs
  omega

theorem lazyStepUD_eq : ∀ (rest : List Char) (acc : List Char),
    lazyStepUD acc rest =
      if stopOkAt (rest.dropWhile isUDChar) then some (acc ++ rest.takeWhile isUDChar)
      else none := by
  intro rest
  induction rest with
  | nil =>
    intro acc
    simp [lazyStepUD, stopOkAt]
  | cons d rest' ih =>
    intro acc
    by_cases hstop : isStopChar d = true
    · have hud : isUDChar d = false := by
        cases hu : isUDChar d
        · rfl
        · exact absurd (stopChar_of_udChar hu) (by simp [hstop])
      rw [List.dropWhile_cons, List.takeWhile_cons]
      simp [lazyStepUD, hstop, hud, stopOkAt]
    · have hstop' : isStopChar d = false := by
        cases hu : isStopChar d
        · rfl
        · exact absurd hu hstop
      by_cases hud : isUDChar d = true
      · rw [List.dropWhile_cons, List.takeWhile_cons]
        simp only [lazyStepUD, hstop', hud, if_true, if_false, Bool.false_eq_true]
        rw [ih (acc ++ [d])]
        simp
      · have hud' : isUDChar d = false := by
          cases hu : isUDChar d
          · rfl
          · exact absurd hu hud
        rw [List.dropWhile_cons, List.takeWhile_cons]
        simp [lazyStepUD, hstop', hud', stopOkAt]

theorem lazyUDMatch_eq (cs : List Char) :
    lazyUDMatch cs =
      if cs.takeWhile isUDChar ≠ [] ∧ stopOkAt (cs.dropWhile isUDChar) = true
      then some (cs.takeWhile isUDChar) else none := by
  cases cs with
  | nil => simp [lazyUDMatch]
  | cons c rest =>
    by_cases hud : isUDChar c = true
    · rw [List.dropWhile_cons, List.takeWhile_cons]
      simp only [lazyUDMatch, hud, if_true]
      rw [lazyStepUD_eq rest [c]]
      by_cases hstop : stopOkAt (rest.dropWhile isUDChar) = true
      · rw [if_pos hstop, if_pos (by simp [hud, hstop])]
        simp [hud]
      · rw [if_neg hstop, if_neg (by simp [hud, hstop])]
    · have hud' : isUDChar c = false := by
        cases hu : isUDChar c
        · rfl
        · exact absurd hu hud
      rw [List.dropWhile_cons, List.takeWhile_cons]
      simp [lazyUDMatch, hud', stopOkAt]

theorem extractSku_eq_cascadeSpec (name : String) : extractSku name = cascadeSpec name := by
  unfold extractSku cascadeSpec
  by_cases h1 : sIncludes name "_" = true
  · simp [h1]
  · simp only [h1, Bool.false_eq_true, if_false,
      show sIncludes name "_" = false from by cases hu : sIncludes name "_" <;> simp_all]
    by_cases h2 : sIncludes name "-" = true
    · simp [h2]
    · simp only [h2, Bool.false_eq_true, if_false,
        show sIncludes name "-" = false from by cases hu : sIncludes name "-" <;> simp_all]
      by_cases h3 : sIncludes name " " = true
      · simp [h3]
      · simp only [h3, Bool.false_eq_true, if_false,
          show sIncludes name " " = false from by cases hu : sIncludes name " " <;> simp_all]
        by_cases h4 : (name.data.takeWhile Char.isDigit).length ≥ 2
        · simp [h4]
        · simp only [h4, if_false]
          rw [lazyUDMatch_eq]
          by_cases hrun : name.data.takeWhile isUDChar ≠ [] ∧
              stopOkAt (name.data.dropWhile isUDChar) = true
          · rw [if_pos hrun]
            by_cases hlen : (name.data.takeWhile isUDChar).length ≥ 2
            · simp only []
              rw [if_pos hlen, if_pos ⟨hlen, hrun.2⟩]
            · simp only []
              rw [if_neg hlen, if_neg (fun hc => hlen hc.1)]
          · rw [if_neg hrun]
            simp only []
            rw [if_neg (fun hc => hrun ⟨by
              intro he
              rw [he] at hc
              simp at hc, hc.2⟩)]

theorem containsSub_singleton : ∀ (cs : List Char) (c : Char),
    containsSub cs [c] = cs.contains c := by
  intro cs c
  induction cs with
  | nil => rfl
  | cons d rest ih =>
    unfold containsSub
    by_cases hdc : d = c
    · subst hdc
      simp [leadMatch, List.contains_cons]
    · simp only [leadMatch]
      rw [if_neg (by simp [hdc, leadMatch])]
      rw [List.contains_cons, ih]
      have hne : ¬(c = d) := fun h => hdc h.symm
      have : (c == d) = false := by simp [hne]
      simp [this]

theorem splitOnChar_len_one {c : Char} : ∀ (cs : List Char), cs.contains c = false →
    (splitOnChar c cs).length = 1 := by
  intro cs
  induction cs with
  | nil => intro _; rfl
  | cons d rest ih =>
    intro h
    rw [List.contains_cons] at h
    have hcd : (c == d) = false := by
      cases hu : (c == d)
      · rfl
      · rw [hu] at h; simp at h
    have hrest : rest.contains c = false := by
      cases hu : rest.contains c
      · rfl
      · rw [hu] at h; simp at h
    have hne : ¬(d = c) := by
      intro he
      rw [he] at hcd
      simp at hcd
    have hlen := ih hrest
    unfold splitOnChar
    rcases hsp : splitOnChar c rest with _ | ⟨r, rs⟩
    · rw [hsp] at hlen; simp at hlen
    · rw [hsp] at hlen
      simp only [List.length_cons, Nat.add_eq, Nat.add_left_cancel_iff] at hlen
      have hrs : rs = [] := List.eq_nil_of_length_eq_zero (by omega)
      subst hrs
      simp [hne]

theorem categorizer_no_underscore (name : String) (h : sIncludes name "_" = false) :
    categorizerGroup name = "UNMATCHED" := by
  have hc : name.data.contains '_' = false := by
    rw [← containsSub_singleton]
    exact h
  have hl := splitOnChar_len_one name.data hc
  unfold categorizerGroup jsSplit
  simp [hl]

/-- Claim C9 (amended): the six-stage cascade describes `extractSkuPrefix` of the
part_005 classifier flow exactly — `extractSku` agrees everywhere with the
cascade as the claim words it, UNMATCHED fallback included.  The
AssetCategorizer / AssetClassifier categorization flows, however, implement
only stage (1): any accepted filename without an underscore is routed to
UNMATCHED rather than through stages (2)-(6). -/
theorem grouping_cascade_spec (name : String) :
    extractSku name = cascadeSpec name ∧
    (sIncludes name "_" = false → categorizerGroup name = "UNMATCHED") :=
  ⟨extractSku_eq_cascadeSpec name, categorizer_no_underscore name⟩

/-- Counterexample for C9 as stated: "AB-1.jpg" is accepted by the
categorization flow's filter, the claimed cascade derives group "AB" (stage
(2): split on the first hyphen), but `processCategorization` assigns it to
UNMATCHED because only the underscore rule is implemented there. -/
theorem categorizer_cascade_counterexample :
    categorizerAccepts "AB-1.jpg" = true ∧
    extractSku "AB-1.jpg" = "AB" ∧
    cascadeSpec "AB-1.jpg" = "AB" ∧
    categorizerGroup "AB-1.jpg" = "UNMATCHED" := by
  refine ⟨by decide, by decide, by decide, by decide⟩

/-- Witness for C9: on the spec's example "7954e.jpg" (no underscore) the
cascade and `extractSku` agree (stage (4): leading digit run "7954"), and
the categorizer flow routes it to UNMATCHED. -/
theorem grouping_cascade_spec_witness :
    extractSku "7954e.jpg" = cascadeSpec "7954e.jpg" ∧
    categorizerGroup "7954e.jpg" = "UNMATCHED" :=
  ⟨(grouping_cascade_spec "7954e.jpg").1,
   (grouping_cascade_spec "7954e.jpg").2 (by decide)⟩
